import Mathlib

/-!
Verification development for the wa-hub repository: a store-and-forward
bridge that appends chat events to rotating JSONL logs, persists a pull
cursor, and tails the logs with rotation-safe cursors.

The C++ sources are shallowly embedded below.  JSON values are modelled by
the inductive `JVal`; the behaviour of nlohmann's `value(key, default)` is
reproduced faithfully, including its type-mismatch exception, via `Except`.
Regex search and JSON text parsing are library facilities and are passed in
as explicit function parameters (`rsearch`, `jparse`).
-/

namespace WaHub

/-- Model of a parsed JSON value (subset used by the repository). -/
inductive JVal where
  | jnull : JVal
  | jbool : Bool → JVal
  | jint : Int → JVal
  | jstr : String → JVal
  | jarr : List JVal → JVal
  | jobj : List (String × JVal) → JVal

/-- Key lookup in a JSON object's field list (`j.contains` / `j[k]`). -/
def objFind (fields : List (String × JVal)) (k : String) : Option JVal :=
  match fields with
  | [] => none
  | (k', v) :: rest => if k' = k then some v else objFind rest k

/-- nlohmann `j.value(key, default)` at type `std::string`: default when the
key is missing, the string when present as a string, and a thrown
`type_error` (modelled as `Except.error`) when present with another type or
when `j` is not an object. -/
def jvalueStr (j : JVal) (k d : String) : Except Unit String :=
  match j with
  | .jobj fs =>
    match objFind fs k with
    | none => .ok d
    | some (.jstr s) => .ok s
    | some _ => .error ()
  | _ => .error ()

/-- nlohmann `j.value(key, default)` at type `long long`: default when the
key is missing, the number when present as a number, and a thrown
`type_error` when present with a non-numeric type or `j` is not an object. -/
def jvalueInt (j : JVal) (k : String) (d : Int) : Except Unit Int :=
  match j with
  | .jobj fs =>
    match objFind fs k with
    | none => .ok d
    | some (.jint n) => .ok n
    | some _ => .error ()
  | _ => .error ()

/-- wa-sub.cpp `struct Filter`: the compiled grep pattern is kept as the
pattern text plus the case-insensitivity flag extracted by `make_filter`. -/
structure CompiledRe where
  pat : String
  icase : Bool
deriving Repr, DecidableEq

structure Filter where
  kind : Option String
  since_ts : Option Int
  re : Option CompiledRe
deriving Repr, DecidableEq

/-- wa-sub.cpp `make_filter`'s regex preparation: a `(?i)` prefix switches
on the case-insensitive flag and is stripped from the pattern. -/
def make_re (pat : String) : CompiledRe :=
  if pat.startsWith "(?i)" then ⟨pat.drop 4, true⟩ else ⟨pat, false⟩

/-- wa-sub.cpp `match_line`, third check: `if(f.re){ ... if(!regex_search(t,*f.re)) return false; } return true;`.
`rsearch text pat icase` stands for `std::regex_search` with the given
pattern and case flag. -/
def check_re (rsearch : String → String → Bool → Bool)
    (j : JVal) (re : Option CompiledRe) : Except Unit Bool :=
  match re with
  | none => .ok true
  | some cre =>
    match jvalueStr j "text" "" with
    | .error e => .error e
    | .ok t => .ok (rsearch t cre.pat cre.icase)

/-- wa-sub.cpp `match_line`, second check: `if(f.since_ts && j.value("ts",0LL) < *f.since_ts) return false;`. -/
def check_ts (rsearch : String → String → Bool → Bool)
    (j : JVal) (f : Filter) : Except Unit Bool :=
  match f.since_ts with
  | none => check_re rsearch j f.re
  | some t =>
    match jvalueInt j "ts" 0 with
    | .error e => .error e
    | .ok ts => if ts < t then .ok false else check_re rsearch j f.re

/-- wa-sub.cpp `match_line`, first check: `if(f.kind && j.value("kind",std::string())!=*f.kind) return false;`. -/
def check_kind (rsearch : String → String → Bool → Bool)
    (j : JVal) (f : Filter) : Except Unit Bool :=
  match f.kind with
  | none => check_ts rsearch j f
  | some k =>
    match jvalueStr j "kind" "" with
    | .error e => .error e
    | .ok kv => if kv ≠ k then .ok false else check_ts rsearch j f

/-- wa-sub.cpp `match_line`.  `jparse` stands for `json::parse(raw, nullptr,
false)` (with `none` as the discarded result).  A discarded parse returns
false; otherwise the three checks run in source order (kind, since-ts,
grep), any of them propagating nlohmann's type error. -/
def match_line (jparse : String → Option JVal)
    (rsearch : String → String → Bool → Bool)
    (f : Filter) (raw : String) : Except Unit Bool :=
  match jparse raw with
  | none => .ok false
  | some j => check_kind rsearch j f

/-- An event record as the hub serializes it (part_000, `process_envelope_and_log`
and the dispatcher): ts, kind and peer always present, payload either a text
or a status label. -/
structure Rec where
  ts : Int
  kind : String
  peer : String
  text : Option String
  status : Option String
deriving Repr, DecidableEq

/-- The JSON object for a record, fields as produced by the hub. -/
def recToJson (r : Rec) : JVal :=
  .jobj ([("ts", .jint r.ts), ("kind", .jstr r.kind), ("peer", .jstr r.peer)]
    ++ (match r.text with | some t => [("text", JVal.jstr t)] | none => [])
    ++ (match r.status with | some s => [("status", JVal.jstr s)] | none => []))

/-- The spec's filter predicate, written from the spec's words: match iff
(no kind filter or kind equals target) and (no min-timestamp or ts ≥
threshold) and (no pattern or pattern found in text). -/
def specMatch (rsearch : String → String → Bool → Bool) (f : Filter) (r : Rec) : Prop :=
  (∀ k, f.kind = some k → r.kind = k) ∧
  (∀ t, f.since_ts = some t → t ≤ r.ts) ∧
  (∀ cre, f.re = some cre → rsearch (r.text.getD "") cre.pat cre.icase = true)

instance (rsearch : String → String → Bool → Bool) (f : Filter) (r : Rec) :
    Decidable (specMatch rsearch f r) := by
  unfold specMatch
  infer_instance

/-! ## Tailing engine (wa-sub.cpp main loop) -/

/-- Index of the first newline in a character list, if any. -/
def nlIdx : List Char → Option Nat
  | [] => none
  | c :: rest => if c = '\n' then some 0 else (nlIdx rest).map (· + 1)

/-- The recursion of the read pass, structurally bounded by a fuel
parameter; each iteration advances the offset by at least one byte, so
`content.length - offset` fuel always suffices (see `readLines`). -/
def readLinesF : Nat → List Char → Nat → List String × Nat
  | 0, _, offset => ([], offset)
  | fuel + 1, content, offset =>
    if offset < content.length then
      match nlIdx (content.drop offset) with
      | some i =>
        let res := readLinesF fuel content (offset + i + 1)
        (String.mk ((content.drop offset).take i) :: res.1, res.2)
      | none => ([String.mk (content.drop offset)], content.length)
    else ([], offset)

/-- wa-sub.cpp main loop, lines 343-353: the read pass of one poll.  The
stream is opened on `content` and seeked to `offset`; `std::getline` is
iterated.  After each complete line `tellg()` yields the position past its
newline.  When `getline` returns a final line not terminated by a newline,
the stream is at EOF, `tellg()` fails (its sentry sees eofbit) and the
source's `if((long long)offset<0) offset = size_of(target);` sets the
offset to the file size; the next `getline` then fails and the pass ends.
Returns the lines read (in order) and the final offset. -/
def readLines (content : List Char) (offset : Nat) : List String × Nat :=
  readLinesF (content.length - offset) content offset

/-- Recursion of `splitAll`, fuel-bounded (one unit per line; `cs.length`
suffices). -/
def splitAllF : Nat → List Char → List String
  | 0, _ => []
  | fuel + 1, cs =>
    match nlIdx cs with
    | some i => String.mk (cs.take i) :: splitAllF fuel (cs.drop (i + 1))
    | none => if cs.isEmpty then [] else [String.mk cs]

/-- Split a character list into getline-style lines: each newline ends a
line, and a non-empty remainder after the last newline is a final
(unterminated) line. -/
def splitAll (cs : List Char) : List String :=
  splitAllF cs.length cs

/-- wa-sub.cpp main loop, line 340: `if(ino != cur_inode || sz < offset){ cur_inode = ino; offset = 0; }`.
Returns the (tracked inode, offset) pair after the check. -/
def tail_reset (cur_inode offset ino sz : Nat) : Nat × Nat :=
  if ino ≠ cur_inode ∨ sz < offset then (ino, 0) else (cur_inode, offset)

/-- One iteration's view of the target file in the tail loop: the clock
value at the deadline check, whether `fs::exists` holds, and the file's
inode and byte content (its size is `content.length`). -/
structure Poll where
  now : Int
  present : Bool
  ino : Nat
  content : List Char

/-- Outcome of a `--once` tailing session run against a finite poll script:
first match found (exit 0), deadline reached (exit 1), an unhandled filter
type error, or the script exhausted with the loop still running. -/
inductive OnceOutcome where
  | matched (out : List String)
  | timedOut (out : List String)
  | crashed
  | ranOut (ino offset : Nat) (out : List String)
deriving DecidableEq

inductive ScanRes where
  | found (l : String)
  | err
  | noneFound
deriving DecidableEq

/-- The per-line body of the read pass in `--once` mode: each line is
checked with `match_line`; the first match is emitted and the loop returns
0 (remaining lines unread). -/
def scan_once (ml : String → Except Unit Bool) : List String → ScanRes
  | [] => .noneFound
  | l :: ls =>
    match ml l with
    | .error _ => .err
    | .ok true => .found l
    | .ok false => scan_once ml ls

/-- wa-sub.cpp main loop (lines 332-357) in `--once` mode, driven by a
finite script of polls.  Per iteration: deadline check first (`return 1`
with the collected output), then existence, then the rotation/truncation
reset, then the read pass with first-match exit (`return 0`), else sleep
and poll again. -/
def once_loop (jparse : String → Option JVal)
    (rsearch : String → String → Bool → Bool) (f : Filter) (deadline : Int) :
    List Poll → Nat → Nat → List String → OnceOutcome
  | [], cur_inode, offset, out => .ranOut cur_inode offset out
  | p :: rest, cur_inode, offset, out =>
    if deadline ≤ p.now then .timedOut out
    else if !p.present then once_loop jparse rsearch f deadline rest cur_inode offset out
    else
      let st := tail_reset cur_inode offset p.ino p.content.length
      if st.2 < p.content.length then
        let res := readLines p.content st.2
        match scan_once (match_line jparse rsearch f) res.1 with
        | .found l => .matched (out ++ [l])
        | .err => .crashed
        | .noneFound => once_loop jparse rsearch f deadline rest st.1 res.2 out
      else once_loop jparse rsearch f deadline rest st.1 st.2 out

/-- Exit code of a finished `--once` session (wa-sub.cpp lines 333, 351):
0 on first match, 1 on timeout. -/
def exit_code : OnceOutcome → Option Nat
  | .matched _ => some 0
  | .timedOut _ => some 1
  | _ => none

/-- wa-sub.cpp `die_usage`: usage errors terminate with `std::exit(2)`. -/
def usage_exit : Nat := 2

/-! ## Rotating log writer (part_000, `RotatingStream`) -/

/-- State of a `RotatingStream`: the file at `path` (as its list of
serialized record lines) and the archived files (name, contents). -/
structure RotState where
  path : String
  cur : List String
  archives : List (String × List String)

/-- Bytes one record contributes: `line.dump()` plus the `'\n'` written by
`append`. -/
def line_size (s : String) : Nat := s.length + 1

/-- `fs::file_size(path)` of a file holding these lines. -/
def file_size (recs : List String) : Nat := (recs.map line_size).sum

/-- `fs::rename(path, arch)`: the archive directory after renaming the
current file to `name`; an existing file of that name is replaced. -/
def rename_to (archives : List (String × List String)) (name : String)
    (contents : List String) : List (String × List String) :=
  archives.filter (fun a => a.1 ≠ name) ++ [(name, contents)]

/-- `RotatingStream::append` followed by `rotate_unlocked` (part_000 lines
248-274): write the line and flush; then, if the threshold is non-zero and
the file size reached it, close, rename to `<path>.<stamp>` and reopen a
fresh file; a failed rename (`renameOk = false`) keeps writing the current
file. -/
def rs_append (threshold : Nat) (stamp : String) (renameOk : Bool)
    (s : RotState) (r : String) : RotState :=
  let cur' := s.cur ++ [r]
  if threshold ≠ 0 ∧ threshold ≤ file_size cur' then
    if renameOk then
      { path := s.path, cur := [],
        archives := rename_to s.archives (s.path ++ "." ++ stamp) cur' }
    else
      { path := s.path, cur := cur', archives := s.archives }
  else
    { path := s.path, cur := cur', archives := s.archives }

/-- Every record visible on disk: archive contents in order, then the
current file. -/
def all_records (s : RotState) : List String :=
  (s.archives.map (·.2)).flatten ++ s.cur

/-! ## Durable cursor store (part_000, `load_since_state` / `save_since_state`) -/

/-- Content of a state file on disk: unparsable bytes, a parsable non-object,
or an object with optional `since` / `updated` members. -/
inductive FileData where
  | corrupt
  | notObject
  | obj (since : Option Int) (updated : Option Int)
deriving DecidableEq

/-- part_000 `load_since_state`: `-1` when the file is absent (`!f.good()`)
or unparsable (`catch`) or not an object; else `j.value("since",-1LL)`. -/
def load_since_state : Option FileData → Int
  | none => -1
  | some .corrupt => -1
  | some .notObject => -1
  | some (.obj s _) => s.getD (-1)

/-- The two files `save_since_state` touches: the canonical state file and
the `<path>.tmp` scratch file. -/
structure FsState where
  canonical : Option FileData
  tmp : Option FileData

/-- part_000 `save_since_state`, as the filesystem states a crash can
expose: before the write, while the temp file is partially written, after
the temp file is written and flushed, and after the atomic
`fs::rename(tmp, p)`. -/
def save_states (canonical₀ tmp₀ : Option FileData) (since updated : Int) :
    List FsState :=
  [ ⟨canonical₀, tmp₀⟩,
    ⟨canonical₀, some .corrupt⟩,
    ⟨canonical₀, some (.obj (some since) (some updated))⟩,
    ⟨some (.obj (some since) (some updated)), none⟩ ]

/-- part_000 `save_since_state` run to completion. -/
def save_since_state (canonical₀ tmp₀ : Option FileData)
    (since updated : Int) : FsState :=
  ⟨some (.obj (some since) (some updated)), none⟩

/-! ## Catch-up paging and the ingestion phases (part_000, `catch_up_all_history` / `main`) -/

/-- One `/pull` response as the loop reads it: HTTP code, whether the body
parses, and the `next_since` / `count` members (`count` defaults to 0,
`next_since` to the current cursor, when missing). -/
structure PullResp where
  code : Nat
  parseOk : Bool
  next_since : Option Int
  count : Int
deriving DecidableEq

inductive StopReason where
  | httpError
  | parseError
  | zeroCount
  | exhausted
deriving DecidableEq

structure CatchUpResult where
  pulls : Nat
  saves : List Int
  cursor : Int
  reason : StopReason
deriving DecidableEq

/-- part_000 `catch_up_all_history` (lines 400-422), run against a finite
script of `/pull` responses: break on non-2xx (no save), break on a
discarded body (no save), otherwise save the new cursor and break if the
page reported zero events.  Records the number of pulls, the sequence of
saved cursor values, the returned cursor and why the loop stopped
(`exhausted` = the script ran out). -/
def catch_up_all_history : List PullResp → Int → CatchUpResult
  | [], cur => ⟨0, [], cur, .exhausted⟩
  | r :: rest, cur =>
    if r.code / 100 ≠ 2 then ⟨1, [], cur, .httpError⟩
    else if !r.parseOk then ⟨1, [], cur, .parseError⟩
    else
      let next := r.next_since.getD cur
      if r.count = 0 then ⟨1, [next], next, .zeroCount⟩
      else
        let res := catch_up_all_history rest next
        ⟨res.pulls + 1, next :: res.saves, res.cursor, res.reason⟩

/-- The cursor value saved for each successfully processed page. -/
def page_cursors : List PullResp → Int → List Int
  | [], _ => []
  | r :: rest, cur =>
    let next := r.next_since.getD cur
    next :: page_cursors rest next

inductive Phase where
  | catchingUp
  | live
  | exited
deriving DecidableEq

/-- part_000 `main` (lines 460-462 and 526-544): load the cursor, run
catch-up when it is unknown, then enter the receiver long-poll loop.  Main
reaches the long-poll loop whatever `catch_up_all_history` returns, and
nothing ever clears `running`, so the post-startup phase is always
`live`. -/
def startup (loaded : Int) (responses : List PullResp) :
    Option CatchUpResult × Phase :=
  if loaded < 0 then (some (catch_up_all_history responses 0), .live)
  else (none, .live)

/-! ## Alias table and peer key (part_000, `load_aliases` / `peer_key`) -/

/-- `std::unordered_map` assignment `m[k] = v` on an association list. -/
def setKV : List (String × String) → String → String → List (String × String)
  | [], k, v => [(k, v)]
  | (k', v') :: rest, k, v =>
    if k' = k then (k, v) :: rest else (k', v') :: setKV rest k v

structure Aliases where
  alias_to_num : List (String × String)
  num_to_alias : List (String × String)

/-- part_000 `load_aliases`'s `add` lambda: `A.alias_to_num[a]=n; A.num_to_alias[n]=a`. -/
def addAlias (A : Aliases) (a n : String) : Aliases :=
  ⟨setKV A.alias_to_num a n, setKV A.num_to_alias n a⟩

/-- The (key, value) pairs the `load_aliases` iteration visits and keeps:
entries of the object whose value is a string, in iteration order. -/
def strEntries : List (String × JVal) → List (String × String)
  | [] => []
  | (k, .jstr v) :: rest => (k, v) :: strEntries rest
  | _ :: rest => strEntries rest

/-- The object `load_aliases` iterates over: the nested `"aliases"` object
when present as an object, else the top-level object, else nothing. -/
def aliasEntries : Option JVal → List (String × String)
  | none => []
  | some (.jobj fs) =>
    match objFind fs "aliases" with
    | some (.jobj inner) => strEntries inner
    | _ => strEntries fs
  | some _ => []

/-- part_000 `load_aliases` (lines 322-336): empty tables when the file is
absent/unreadable/unparsable (`file = none`) or not an object; otherwise
`add` every string-valued entry of the selected object. -/
def load_aliases (file : Option JVal) : Aliases :=
  match file with
  | none => ⟨[], []⟩
  | some (.jobj fs) =>
    (aliasEntries (some (.jobj fs))).foldl (fun A e => addAlias A e.1 e.2) ⟨[], []⟩
  | some _ => ⟨[], []⟩

/-- part_000 `peer_key` (lines 337-339): the alias found in `num_to_alias`,
or the raw number when absent. -/
def peer_key (A : Aliases) (number : String) : String :=
  (A.num_to_alias.lookup number).getD number

/-! ## C6: tail cursor reset rule -/

/-- C6: on every poll, if the current file identity differs from the
tracked identity or the current size is smaller than the tracked offset,
the offset is reset to 0 against the current file; otherwise both tracked
values are kept. -/
theorem tail_cursor_reset_rule (cur_inode offset ino sz : Nat) :
    ((ino ≠ cur_inode ∨ sz < offset) →
      tail_reset cur_inode offset ino sz = (ino, 0)) ∧
    (ino = cur_inode → offset ≤ sz →
      tail_reset cur_inode offset ino sz = (cur_inode, offset)) := by
  constructor
  · intro h
    simp only [tail_reset, if_pos h]
  · intro h1 h2
    have hn : ¬(ino ≠ cur_inode ∨ sz < offset) := by
      push_neg
      exact ⟨h1, h2⟩
    simp only [tail_reset, if_neg hn]

theorem tail_cursor_reset_rule_witness :
    tail_reset 1 5 2 9 = (2, 0) ∧ tail_reset 1 5 1 7 = (1, 5) :=
  ⟨(tail_cursor_reset_rule 1 5 2 9).1 (by decide),
   (tail_cursor_reset_rule 1 5 1 7).2 (by decide) (by decide)⟩

/-! ## C4: durable cursor store -/

/-- C4: `save` writes to the temp file and atomically renames it over the
canonical path, so every crash-exposed filesystem state has a canonical
file that is either the prior one or the completely written new state;
`load` then yields either the prior value or the saved value, exactly the
saved value after `save` returns, and the `-1` sentinel when the file is
absent or unparsable (or not an object). -/
theorem cursor_store_crash_atomic (c₀ t₀ : Option FileData)
    (since updated : Int) :
    load_since_state (save_since_state c₀ t₀ since updated).canonical = since ∧
    (∀ st ∈ save_states c₀ t₀ since updated,
      (st.canonical = c₀ ∨
        st.canonical = some (.obj (some since) (some updated))) ∧
      (load_since_state st.canonical = load_since_state c₀ ∨
        load_since_state st.canonical = since)) ∧
    load_since_state none = -1 ∧
    load_since_state (some .corrupt) = -1 ∧
    load_since_state (some .notObject) = -1 := by
  refine ⟨by simp [save_since_state, load_since_state], ?_, rfl, rfl, rfl⟩
  intro st hst
  simp only [save_states, List.mem_cons, List.mem_singleton,
    List.not_mem_nil, or_false] at hst
  rcases hst with rfl | rfl | rfl | rfl <;>
    simp [load_since_state]

theorem cursor_store_crash_atomic_witness :
    (FsState.mk (some FileData.corrupt) none).canonical =
        some FileData.corrupt ∨
      (FsState.mk (some FileData.corrupt) none).canonical =
        some (FileData.obj (some 7) (some 9)) :=
  ((cursor_store_crash_atomic (some .corrupt) none 7 9).2.1
    ⟨some .corrupt, none⟩ (by simp [save_states])).1

/-! ## C3: catch-up on a non-success pull response -/

/-- C3 counterexample: with an unknown cursor and a 500 on the first pull,
catch-up stops with an http error, yet startup still reaches the LIVE
long-poll phase — the process does not exit, contradicting the claim. -/
theorem catch_up_abort_counterexample :
    (startup (-1) [⟨500, true, none, 5⟩]).2 = Phase.live ∧
    (startup (-1) [⟨500, true, none, 5⟩]).1 =
      some ⟨1, [], 0, .httpError⟩ ∧
    Phase.live ≠ Phase.exited := by
  decide

/-- C3 amended: on a non-success (non-2xx) pull response the catch-up loop
stops pulling — no pull after the failing one, no save for the failed
page, cursor left at the last saved value (or its initial value when
nothing was saved) — and the process then continues into the LIVE
long-poll state rather than exiting. -/
theorem catch_up_nonsuccess_stops (good : List PullResp) (bad : PullResp)
    (rest : List PullResp) (c0 : Int)
    (hg : ∀ g ∈ good, g.code / 100 = 2 ∧ g.parseOk = true ∧ g.count ≠ 0)
    (hb : bad.code / 100 ≠ 2) :
    (catch_up_all_history (good ++ bad :: rest) c0).reason = .httpError ∧
    (catch_up_all_history (good ++ bad :: rest) c0).pulls = good.length + 1 ∧
    (catch_up_all_history (good ++ bad :: rest) c0).saves =
      page_cursors good c0 ∧
    (catch_up_all_history (good ++ bad :: rest) c0).cursor =
      (page_cursors good c0).getLastD c0 ∧
    (startup (-1) (good ++ bad :: rest)).2 = Phase.live := by
  induction good generalizing c0 with
  | nil =>
    simp [catch_up_all_history, hb, page_cursors, startup]
  | cons g gs ih =>
    obtain ⟨h2, hp, hc⟩ := hg g (by simp)
    have ih' := ih (g.next_since.getD c0)
      (fun x hx => hg x (List.mem_cons_of_mem _ hx))
    have hstep : catch_up_all_history ((g :: gs) ++ bad :: rest) c0 =
        ⟨(catch_up_all_history (gs ++ bad :: rest)
            (g.next_since.getD c0)).pulls + 1,
          g.next_since.getD c0 ::
            (catch_up_all_history (gs ++ bad :: rest)
              (g.next_since.getD c0)).saves,
          (catch_up_all_history (gs ++ bad :: rest)
            (g.next_since.getD c0)).cursor,
          (catch_up_all_history (gs ++ bad :: rest)
            (g.next_since.getD c0)).reason⟩ := by
      simp [catch_up_all_history, h2, hp, hc]
    rw [hstep]
    refine ⟨ih'.1, ?_, ?_, ?_, by simp [startup]⟩
    · simp [ih'.2.1]
    · simp [page_cursors, ih'.2.2.1]
    · simp only [page_cursors]
      rw [List.getLastD_cons]
      exact ih'.2.2.2.1

theorem catch_up_nonsuccess_stops_witness :
    (catch_up_all_history
        ([⟨200, true, some 5, 3⟩] ++ ⟨500, true, none, 0⟩ :: []) 0).reason =
      .httpError ∧
    (catch_up_all_history
        ([⟨200, true, some 5, 3⟩] ++ ⟨500, true, none, 0⟩ :: []) 0).pulls =
      [(⟨200, true, some 5, 3⟩ : PullResp)].length + 1 ∧
    (catch_up_all_history
        ([⟨200, true, some 5, 3⟩] ++ ⟨500, true, none, 0⟩ :: []) 0).saves =
      page_cursors [⟨200, true, some 5, 3⟩] 0 ∧
    (catch_up_all_history
        ([⟨200, true, some 5, 3⟩] ++ ⟨500, true, none, 0⟩ :: []) 0).cursor =
      (page_cursors [⟨200, true, some 5, 3⟩] 0).getLastD 0 ∧
    (startup (-1) ([⟨200, true, some 5, 3⟩] ++ ⟨500, true, none, 0⟩ :: [])).2 =
      Phase.live :=
  catch_up_nonsuccess_stops [⟨200, true, some 5, 3⟩] ⟨500, true, none, 0⟩ []
    0 (by decide) (by decide)

/-! ## C7: catch-up paging scenario -/

/-- C7: when successive pull pages report count 200, 200, 0 (well-formed
2xx responses with non-decreasing next-since cursors), the loop pulls
exactly 3 times, saves the cursor exactly 3 times with non-decreasing
values, stops on the zero page and the process then enters the LIVE
long-poll phase. -/
theorem catch_up_paging_scenario (r1 r2 r3 : PullResp) (rest : List PullResp)
    (n1 n2 n3 : Int)
    (h1 : r1.code / 100 = 2) (h1p : r1.parseOk = true)
    (h1c : r1.count = 200) (h1n : r1.next_since = some n1)
    (h2 : r2.code / 100 = 2) (h2p : r2.parseOk = true)
    (h2c : r2.count = 200) (h2n : r2.next_since = some n2)
    (h3 : r3.code / 100 = 2) (h3p : r3.parseOk = true)
    (h3c : r3.count = 0) (h3n : r3.next_since = some n3)
    (m1 : n1 ≤ n2) (m2 : n2 ≤ n3) :
    (catch_up_all_history (r1 :: r2 :: r3 :: rest) 0).pulls = 3 ∧
    (catch_up_all_history (r1 :: r2 :: r3 :: rest) 0).saves = [n1, n2, n3] ∧
    List.Chain' (· ≤ ·) (catch_up_all_history (r1 :: r2 :: r3 :: rest) 0).saves ∧
    (catch_up_all_history (r1 :: r2 :: r3 :: rest) 0).reason = .zeroCount ∧
    (startup (-1) (r1 :: r2 :: r3 :: rest)).2 = Phase.live := by
  have e : catch_up_all_history (r1 :: r2 :: r3 :: rest) 0 =
      ⟨3, [n1, n2, n3], n3, .zeroCount⟩ := by
    simp [catch_up_all_history, h1, h1p, h1c, h1n, h2, h2p, h2c, h2n,
      h3, h3p, h3c, h3n]
  rw [e]
  refine ⟨rfl, rfl, ?_, rfl, by simp [startup]⟩
  simp [List.chain'_cons, m1, m2]

theorem catch_up_paging_scenario_witness :
    (catch_up_all_history
        [⟨200, true, some 10, 200⟩, ⟨200, true, some 20, 200⟩,
          ⟨200, true, some 20, 0⟩] 0).pulls = 3 ∧
    (catch_up_all_history
        [⟨200, true, some 10, 200⟩, ⟨200, true, some 20, 200⟩,
          ⟨200, true, some 20, 0⟩] 0).saves = [10, 20, 20] ∧
    List.Chain' (· ≤ ·)
      (catch_up_all_history
        [⟨200, true, some 10, 200⟩, ⟨200, true, some 20, 200⟩,
          ⟨200, true, some 20, 0⟩] 0).saves ∧
    (catch_up_all_history
        [⟨200, true, some 10, 200⟩, ⟨200, true, some 20, 200⟩,
          ⟨200, true, some 20, 0⟩] 0).reason = .zeroCount ∧
    (startup (-1)
        [⟨200, true, some 10, 200⟩, ⟨200, true, some 20, 200⟩,
          ⟨200, true, some 20, 0⟩]).2 = Phase.live :=
  catch_up_paging_scenario ⟨200, true, some 10, 200⟩ ⟨200, true, some 20, 200⟩
    ⟨200, true, some 20, 0⟩ [] 10 20 20 rfl rfl rfl rfl rfl rfl rfl rfl rfl
    rfl rfl rfl (by decide) (by decide)

/-! ## C1: rotating log writer -/

/-- C1: an append whose write brings the file size to the threshold (with
rotation enabled and the rename succeeding to a not-yet-used archive name)
leaves a fresh empty file at the original path, archives the whole previous
content under `<path>.<stamp>` with the triggering record as its last line,
and neither duplicates nor loses any record. -/
theorem rotating_append_rotates (threshold : Nat) (stamp : String)
    (s : RotState) (r : String)
    (hthr : threshold ≠ 0)
    (hsz : threshold ≤ file_size (s.cur ++ [r]))
    (hfresh : (s.path ++ "." ++ stamp) ∉ s.archives.map (·.1)) :
    (rs_append threshold stamp true s r).cur = [] ∧
    (s.path ++ "." ++ stamp, s.cur ++ [r]) ∈
      (rs_append threshold stamp true s r).archives ∧
    (s.cur ++ [r]).getLast? = some r ∧
    all_records (rs_append threshold stamp true s r) = all_records s ++ [r] := by
  have hcond : threshold ≠ 0 ∧ threshold ≤ file_size (s.cur ++ [r]) :=
    ⟨hthr, hsz⟩
  have happ : rs_append threshold stamp true s r =
      { path := s.path, cur := [],
        archives := rename_to s.archives (s.path ++ "." ++ stamp)
          (s.cur ++ [r]) } := by
    simp only [rs_append, if_pos hcond, if_pos]
  have hfilter : s.archives.filter
      (fun a => !decide (a.1 = s.path ++ "." ++ stamp)) = s.archives := by
    apply List.filter_eq_self.mpr
    intro a ha
    simp only [Bool.not_eq_true', decide_eq_false_iff_not]
    intro heq
    exact hfresh (heq ▸ List.mem_map_of_mem (·.1) ha)
  rw [happ]
  refine ⟨rfl, ?_, ?_, ?_⟩
  · simp [rename_to]
  · simp [List.getLast?_append]
  · simp [all_records, rename_to, hfilter]

theorem rotating_append_rotates_witness :
    (rs_append 1 "t" true ⟨"p", [], []⟩ "a").cur = [] ∧
    ("p" ++ "." ++ "t", ([] : List String) ++ ["a"]) ∈
      (rs_append 1 "t" true ⟨"p", [], []⟩ "a").archives ∧
    (([] : List String) ++ ["a"]).getLast? = some "a" ∧
    all_records (rs_append 1 "t" true ⟨"p", [], []⟩ "a") =
      all_records ⟨"p", [], []⟩ ++ ["a"] :=
  rotating_append_rotates 1 "t" ⟨"p", [], []⟩ "a" (by decide)
    (by simp [file_size, line_size]) (by simp)

/-! ## C9: peer key resolution -/

theorem lookup_setKV_self (m : List (String × String)) (k v : String) :
    (setKV m k v).lookup k = some v := by
  induction m with
  | nil => simp [setKV, List.lookup]
  | cons e rest ih =>
    obtain ⟨k', v'⟩ := e
    by_cases hk : k' = k
    · simp [setKV, hk, List.lookup]
    · have hbk : (k == k') = false :=
        beq_eq_false_iff_ne.mpr (fun h => hk h.symm)
      simp [setKV, hk, List.lookup, hbk, ih]

theorem lookup_setKV_ne (m : List (String × String)) (x k v : String)
    (hx : x ≠ k) : (setKV m k v).lookup x = m.lookup x := by
  have hbx : (x == k) = false := beq_eq_false_iff_ne.mpr hx
  induction m with
  | nil => simp [setKV, List.lookup, hbx]
  | cons e rest ih =>
    obtain ⟨k', v'⟩ := e
    by_cases hk : k' = k
    · subst hk
      simp [setKV, List.lookup, hbx]
    · by_cases hxk : x = k'
      · have hbxk : (x == k') = true := beq_iff_eq.mpr hxk
        simp [setKV, hk, List.lookup, hbxk]
      · have hbxk : (x == k') = false := beq_eq_false_iff_ne.mpr hxk
        simp [setKV, hk, List.lookup, hbxk, ih]

theorem build_lookup_none (entries : List (String × String)) (A : Aliases)
    (x : String) (h : ∀ e ∈ entries, e.2 ≠ x) :
    ((entries.foldl (fun A e => addAlias A e.1 e.2) A).num_to_alias).lookup x =
      A.num_to_alias.lookup x := by
  induction entries generalizing A with
  | nil => rfl
  | cons e rest ih =>
    have hne : e.2 ≠ x := h e (by simp)
    rw [List.foldl_cons, ih _ (fun e' he' => h e' (List.mem_cons_of_mem _ he'))]
    exact lookup_setKV_ne _ _ _ _ (fun hx => hne hx.symm) |>.symm ▸ rfl

theorem build_lookup_mem (entries : List (String × String)) (A : Aliases)
    (x a : String)
    (h : ((entries.foldl (fun A e => addAlias A e.1 e.2) A).num_to_alias).lookup x
      = some a) :
    (a, x) ∈ entries ∨ A.num_to_alias.lookup x = some a := by
  induction entries generalizing A with
  | nil => exact .inr h
  | cons e rest ih =>
    rw [List.foldl_cons] at h
    rcases ih _ h with hm | hA
    · exact .inl (List.mem_cons_of_mem _ hm)
    · by_cases hvx : e.2 = x
      · subst hvx
        rw [show addAlias A e.1 e.2 = ⟨setKV A.alias_to_num e.1 e.2,
            setKV A.num_to_alias e.2 e.1⟩ from rfl] at hA
        simp only [lookup_setKV_self] at hA
        obtain rfl : e.1 = a := by injection hA
        exact .inl (by simp)
      · rw [show addAlias A e.1 e.2 = ⟨setKV A.alias_to_num e.1 e.2,
            setKV A.num_to_alias e.2 e.1⟩ from rfl] at hA
        simp only at hA
        rw [lookup_setKV_ne _ _ _ _ (fun hx => hvx hx.symm)] at hA
        exact .inr hA

theorem build_lookup_some (entries : List (String × String)) (A : Aliases)
    (x : String)
    (h : (∃ e ∈ entries, e.2 = x) ∨
      ∃ a, A.num_to_alias.lookup x = some a) :
    ∃ a, ((entries.foldl (fun A e => addAlias A e.1 e.2) A).num_to_alias).lookup x
      = some a := by
  induction entries generalizing A with
  | nil =>
    rcases h with ⟨e, he, _⟩ | ha
    · exact absurd he (List.not_mem_nil e)
    · exact ha
  | cons e rest ih =>
    rw [List.foldl_cons]
    apply ih
    rcases h with ⟨e', he', hv⟩ | ⟨a, ha⟩
    · rcases List.mem_cons.mp he' with rfl | hrest
      · right
        refine ⟨e'.1, ?_⟩
        rw [show addAlias A e'.1 e'.2 = ⟨setKV A.alias_to_num e'.1 e'.2,
            setKV A.num_to_alias e'.2 e'.1⟩ from rfl]
        simp only
        rw [hv]
        exact lookup_setKV_self _ _ _
      · exact .inl ⟨e', hrest, hv⟩
    · by_cases hvx : e.2 = x
      · right
        refine ⟨e.1, ?_⟩
        rw [show addAlias A e.1 e.2 = ⟨setKV A.alias_to_num e.1 e.2,
            setKV A.num_to_alias e.2 e.1⟩ from rfl]
        simp only
        rw [hvx]
        exact lookup_setKV_self _ _ _
      · right
        refine ⟨a, ?_⟩
        rw [show addAlias A e.1 e.2 = ⟨setKV A.alias_to_num e.1 e.2,
            setKV A.num_to_alias e.2 e.1⟩ from rfl]
        simp only
        rw [lookup_setKV_ne _ _ _ _ (fun hx => hvx hx.symm)]
        exact ha

theorem load_aliases_foldl (file : Option JVal) :
    load_aliases file =
      (aliasEntries file).foldl (fun A e => addAlias A e.1 e.2) ⟨[], []⟩ := by
  match file with
  | none => rfl
  | some (.jobj fs) => rfl
  | some .jnull => rfl
  | some (.jbool b) => rfl
  | some (.jint n) => rfl
  | some (.jstr s) => rfl
  | some (.jarr xs) => rfl

/-- C9: the resolved peer key falls back to the raw identifier whenever the
alias file is absent, unreadable or unparsable (`file = none`), is not an
object (no entries), or maps no alias to that identifier; otherwise it is
an alias whose value in the file equals the identifier. -/
theorem peer_key_fallback (file : Option JVal) (x : String) :
    ((∀ e ∈ aliasEntries file, e.2 ≠ x) →
      peer_key (load_aliases file) x = x) ∧
    ((∃ e ∈ aliasEntries file, e.2 = x) →
      ∃ a, peer_key (load_aliases file) x = a ∧ (a, x) ∈ aliasEntries file) := by
  constructor
  · intro h
    unfold peer_key
    rw [load_aliases_foldl, build_lookup_none _ _ _ h]
    rfl
  · intro h
    obtain ⟨a, ha⟩ := build_lookup_some (aliasEntries file) ⟨[], []⟩ x (.inl h)
    refine ⟨a, ?_, ?_⟩
    · unfold peer_key
      rw [load_aliases_foldl, ha]
      rfl
    · rcases build_lookup_mem _ _ _ _ ha with hm | habs
      · exact hm
      · simp [List.lookup] at habs

theorem peer_key_fallback_witness :
    (peer_key (load_aliases none) "num" = "num") ∧
    (∃ a, peer_key
        (load_aliases (some (.jobj [("ann", .jstr "num")]))) "num" = a ∧
      (a, "num") ∈ aliasEntries (some (.jobj [("ann", .jstr "num")]))) :=
  ⟨(peer_key_fallback none "num").1 (by simp [aliasEntries]),
   (peer_key_fallback (some (.jobj [("ann", .jstr "num")])) "num").2
     ⟨("ann", "num"), by simp [aliasEntries, strEntries, objFind], rfl⟩⟩

/-! ## C2: the tail read pass -/

theorem nlIdx_lt_length {cs : List Char} {i : Nat} (h : nlIdx cs = some i) :
    i < cs.length := by
  induction cs generalizing i with
  | nil => simp [nlIdx] at h
  | cons c rest ih =>
    by_cases hc : c = '\n'
    · simp [nlIdx, hc] at h
      simp only [List.length_cons]
      omega
    · simp [nlIdx, hc] at h
      obtain ⟨j, hj, rfl⟩ := h
      have := ih hj
      simp
      omega

theorem nlIdx_nil : nlIdx [] = none := rfl

theorem splitAllF_mono : ∀ (n m : Nat) (cs : List Char),
    cs.length ≤ n → cs.length ≤ m → splitAllF n cs = splitAllF m cs := by
  intro n
  induction n with
  | zero =>
    intro m cs hn _
    have : cs = [] := List.length_eq_zero.mp (by omega)
    subst this
    cases m with
    | zero => rfl
    | succ m => simp [splitAllF, nlIdx_nil]
  | succ n ih =>
    intro m cs hn hm
    cases m with
    | zero =>
      have : cs = [] := List.length_eq_zero.mp (by omega)
      subst this
      simp [splitAllF, nlIdx_nil]
    | succ m =>
      simp only [splitAllF]
      cases hnl : nlIdx cs with
      | none => rfl
      | some i =>
        have hlen : (cs.drop (i + 1)).length ≤ n := by
          simp only [List.length_drop]
          omega
        have hlen' : (cs.drop (i + 1)).length ≤ m := by
          simp only [List.length_drop]
          omega
        dsimp only
        rw [ih m (cs.drop (i + 1)) hlen hlen']

theorem splitAll_some {cs : List Char} {i : Nat} (h : nlIdx cs = some i) :
    splitAll cs = String.mk (cs.take i) :: splitAll (cs.drop (i + 1)) := by
  have hpos : 0 < cs.length := Nat.pos_of_ne_zero (by
    intro h0
    rw [List.length_eq_zero.mp h0] at h
    simp [nlIdx_nil] at h)
  unfold splitAll
  obtain ⟨n, hn⟩ : ∃ n, cs.length = n + 1 := ⟨cs.length - 1, by omega⟩
  rw [hn]
  simp only [splitAllF, h]
  rw [splitAllF_mono n (cs.drop (i + 1)).length (cs.drop (i + 1))
    (by simp only [List.length_drop]; omega) le_rfl]

theorem splitAll_none {cs : List Char} (h : nlIdx cs = none) :
    splitAll cs = if cs.isEmpty then [] else [String.mk cs] := by
  unfold splitAll
  cases hl : cs.length with
  | zero =>
    have : cs = [] := List.length_eq_zero.mp hl
    subst this
    rfl
  | succ n => simp only [splitAllF, h]

theorem readLinesF_eq : ∀ (n : Nat) (c : List Char) (o : Nat),
    c.length - o ≤ n → o ≤ c.length →
    readLinesF n c o = (splitAll (c.drop o), c.length) := by
  intro n
  induction n with
  | zero =>
    intro c o hn ho
    have : o = c.length := by omega
    subst this
    simp [readLinesF, List.drop_length, splitAll, splitAllF]
  | succ n ih =>
    intro c o hn ho
    by_cases hlt : o < c.length
    · simp only [readLinesF, if_pos hlt]
      cases hnl : nlIdx (c.drop o) with
      | some i =>
        have hi : i < (c.drop o).length := nlIdx_lt_length hnl
        simp only [List.length_drop] at hi
        have hrec := ih c (o + i + 1) (by omega) (by omega)
        have hdd : (c.drop o).drop (i + 1) = c.drop (o + i + 1) := by
          rw [List.drop_drop, Nat.add_assoc]
        rw [splitAll_some hnl, hdd]
        simp only [hrec]
      | none =>
        have hne : ¬(c.drop o).isEmpty = true := by
          simp only [List.isEmpty_iff, List.drop_eq_nil_iff]
          omega
        rw [splitAll_none hnl, if_neg hne]
    · have : o = c.length := by omega
      subst this
      simp [readLinesF, List.drop_length, splitAll, splitAllF]

/-- C2 counterexample: polling a file whose content is `"a\nb"` (a complete
line followed by a partial trailing line) from offset 0, the read pass
consumes and returns the partial line `"b"` and advances the offset to the
full size 3 — the claim requires lines `["a"]` only with the offset left at
2. -/
theorem tail_read_partial_counterexample :
    readLines ['a', '\n', 'b'] 0 = (["a", "b"], 3) ∧
    (["a", "b"] : List String) ≠ ["a"] ∧ (3 : Nat) ≠ 2 := by
  refine ⟨by decide, by decide, by decide⟩

/-- C2 amended: whenever the size exceeds the tracked offset, the read pass
consumes every line of the remainder — the complete lines and also a
partial trailing line when one is present — and leaves the offset at the
file size; a partial trailing line is therefore matched in the same poll
and is not re-read later. -/
theorem tail_read_step (content : List Char) (offset : Nat)
    (h : offset ≤ content.length) :
    readLines content offset =
      (splitAll (content.drop offset), content.length) ∧
    (nlIdx (content.drop offset) = none → offset < content.length →
      readLines content offset =
        ([String.mk (content.drop offset)], content.length)) := by
  have he : readLines content offset =
      (splitAll (content.drop offset), content.length) :=
    readLinesF_eq (content.length - offset) content offset le_rfl h
  constructor
  · exact he
  · intro hnl hlt
    rw [he, splitAll_none hnl, if_neg (by
      simp only [List.isEmpty_iff, List.drop_eq_nil_iff]
      omega)]

theorem tail_read_step_witness :
    readLines ['a', '\n', 'b'] 0 =
      (splitAll (List.drop 0 ['a', '\n', 'b']), (['a', '\n', 'b'] : List Char).length) :=
  (tail_read_step ['a', '\n', 'b'] 0 (by decide)).1

/-! ## C5 / C10: the filter predicate -/

theorem jvalueStr_kind (r : Rec) :
    jvalueStr (recToJson r) "kind" "" = .ok r.kind := rfl

theorem jvalueInt_ts (r : Rec) :
    jvalueInt (recToJson r) "ts" 0 = .ok r.ts := rfl

theorem jvalueStr_text (r : Rec) :
    jvalueStr (recToJson r) "text" "" = .ok (r.text.getD "") := by
  obtain ⟨ts, kind, peer, text, status⟩ := r
  cases text <;> cases status <;> rfl

theorem check_re_rec (rsearch : String → String → Bool → Bool) (r : Rec)
    (re : Option CompiledRe) :
    check_re rsearch (recToJson r) re =
      .ok (match re with
        | none => true
        | some cre => rsearch (r.text.getD "") cre.pat cre.icase) := by
  cases re with
  | none => rfl
  | some cre => simp only [check_re, jvalueStr_text]

theorem check_ts_rec (rsearch : String → String → Bool → Bool) (r : Rec)
    (f : Filter) :
    check_ts rsearch (recToJson r) f =
      .ok ((match f.since_ts with
        | none => true
        | some t => !decide (r.ts < t)) &&
        (match f.re with
        | none => true
        | some cre => rsearch (r.text.getD "") cre.pat cre.icase)) := by
  cases hts : f.since_ts with
  | none => simp only [check_ts, hts, check_re_rec, Bool.true_and]
  | some t =>
    simp only [check_ts, hts, jvalueInt_ts]
    by_cases hlt : r.ts < t
    · simp [hlt]
    · simp [hlt, check_re_rec]

theorem check_kind_rec (rsearch : String → String → Bool → Bool) (r : Rec)
    (f : Filter) :
    check_kind rsearch (recToJson r) f =
      .ok ((match f.kind with
        | none => true
        | some k => decide (r.kind = k)) &&
        ((match f.since_ts with
        | none => true
        | some t => !decide (r.ts < t)) &&
        (match f.re with
        | none => true
        | some cre => rsearch (r.text.getD "") cre.pat cre.icase))) := by
  cases hk : f.kind with
  | none => simp only [check_kind, hk, check_ts_rec, Bool.true_and]
  | some k =>
    simp only [check_kind, hk, jvalueStr_kind]
    by_cases heq : r.kind = k
    · simp [heq, check_ts_rec]
    · simp [heq]

/-- C5: a line that parses as an event record matches exactly when every
present filter passes — kind equality, ts at least the threshold, pattern
found in the (defaulted) text with the requested case flag — and a line
that does not parse never matches. -/
theorem tail_filter_predicate (jparse : String → Option JVal)
    (rsearch : String → String → Bool → Bool) (f : Filter) (raw : String)
    (r : Rec) :
    (jparse raw = some (recToJson r) →
      (match_line jparse rsearch f raw = .ok true ↔ specMatch rsearch f r)) ∧
    (jparse raw = none → match_line jparse rsearch f raw = .ok false) := by
  constructor
  · intro h
    have hm : match_line jparse rsearch f raw =
        check_kind rsearch (recToJson r) f := by
      simp only [match_line, h]
    rw [hm, check_kind_rec]
    simp only [Except.ok.injEq]
    obtain ⟨fk, fts, fre⟩ := f
    simp only [specMatch]
    cases fk <;> cases fts <;> cases fre <;>
      simp [Bool.and_eq_true, decide_eq_true_eq, Bool.not_eq_true',
        decide_eq_false_iff_not, not_lt]
  · intro h
    simp only [match_line, h]

theorem tail_filter_predicate_witness :
    match_line
        (fun _ => some (recToJson ⟨5, "received", "p", some "hello", none⟩))
        (fun _ _ _ => true) ⟨some "received", some 3, none⟩ "x" = .ok true ↔
      specMatch (fun _ _ _ => true) ⟨some "received", some 3, none⟩
        ⟨5, "received", "p", some "hello", none⟩ :=
  (tail_filter_predicate
    (fun _ => some (recToJson ⟨5, "received", "p", some "hello", none⟩))
    (fun _ _ _ => true) ⟨some "received", some 3, none⟩ "x"
    ⟨5, "received", "p", some "hello", none⟩).1 rfl

/-- C10 counterexample: on a line parsing to `{"ts": "9"}` — a present but
non-numeric ts — with min-timestamp filter 1, `match_line` raises
nlohmann's type error (uncaught in the source) instead of treating ts as 0
and returning a non-match. -/
theorem filter_defaults_counterexample :
    match_line (fun _ => some (.jobj [("ts", JVal.jstr "9")]))
        (fun _ _ _ => true) ⟨none, some 1, none⟩ "x" = .error () ∧
    (Except.error () : Except Unit Bool) ≠ .ok false := by
  exact ⟨rfl, by simp⟩

/-- C10 amended: for a line parsing as a JSON object, a missing ts is
treated as 0 (so any positive min-timestamp filter rejects it) and a
missing text as the empty string for the pattern filter; but a ts present
with a non-numeric value is not defaulted — the filter evaluation raises an
unhandled type error. -/
theorem filter_defaults_amended (jparse : String → Option JVal)
    (rsearch : String → String → Bool → Bool) (raw : String)
    (fields : List (String × JVal)) (h : jparse raw = some (.jobj fields)) :
    (∀ t : Int, 0 < t → objFind fields "ts" = none →
      match_line jparse rsearch ⟨none, some t, none⟩ raw = .ok false) ∧
    (∀ cre : CompiledRe, objFind fields "text" = none →
      match_line jparse rsearch ⟨none, none, some cre⟩ raw =
        .ok (rsearch "" cre.pat cre.icase)) ∧
    (∀ (t : Int) (v : JVal), objFind fields "ts" = some v →
      (∀ n : Int, v ≠ .jint n) →
      match_line jparse rsearch ⟨none, some t, none⟩ raw = .error ()) := by
  refine ⟨?_, ?_, ?_⟩
  · intro t ht hts
    simp only [match_line, h, check_kind, check_ts, jvalueInt, hts]
    simp [ht]
  · intro cre htext
    simp only [match_line, h, check_kind, check_ts, check_re, jvalueStr, htext]
  · intro t v hv hnint
    have he : jvalueInt (.jobj fields) "ts" 0 = .error () := by
      cases v with
      | jint n => exact absurd rfl (hnint n)
      | jnull => simp [jvalueInt, hv]
      | jbool b => simp [jvalueInt, hv]
      | jstr s => simp [jvalueInt, hv]
      | jarr xs => simp [jvalueInt, hv]
      | jobj fs => simp [jvalueInt, hv]
    simp only [match_line, h, check_kind, check_ts, he]

theorem filter_defaults_amended_witness :
    match_line (fun _ => some (.jobj [])) (fun _ _ _ => false)
        ⟨none, some 5, none⟩ "x" = .ok false :=
  (filter_defaults_amended (fun _ => some (.jobj [])) (fun _ _ _ => false)
    "x" [] rfl).1 5 (by decide) rfl

/-! ## C8: single-match-or-timeout outcomes -/

theorem scan_once_found (ml : String → Except Unit Bool) :
    ∀ (ls : List String) (l : String),
      scan_once ml ls = .found l → ml l = .ok true ∧ l ∈ ls := by
  intro ls
  induction ls with
  | nil =>
    intro l h
    simp [scan_once] at h
  | cons x xs ih =>
    intro l h
    cases hml : ml x with
    | error e => simp [scan_once, hml] at h
    | ok b =>
      cases b with
      | false =>
        simp only [scan_once, hml] at h
        exact (ih l h).imp id (List.mem_cons_of_mem x)
      | true =>
        simp only [scan_once, hml, ScanRes.found.injEq] at h
        subst h
        exact ⟨hml, List.mem_cons_self x xs⟩

theorem once_loop_timedOut (jparse : String → Option JVal)
    (rsearch : String → String → Bool → Bool) (f : Filter) (deadline : Int) :
    ∀ (polls : List Poll) (cur_inode offset : Nat) (out out' : List String),
      once_loop jparse rsearch f deadline polls cur_inode offset out =
        .timedOut out' →
      out' = out ∧ ∃ p ∈ polls, deadline ≤ p.now := by
  intro polls
  induction polls with
  | nil =>
    intro ci off out out' h
    simp [once_loop] at h
  | cons p rest ih =>
    intro ci off out out' h
    simp only [once_loop] at h
    by_cases hd : deadline ≤ p.now
    · rw [if_pos hd] at h
      cases h
      exact ⟨rfl, p, List.mem_cons_self p rest, hd⟩
    · rw [if_neg hd] at h
      cases hp : p.present with
      | false =>
        rw [if_pos (show (!p.present) = true by simp [hp])] at h
        obtain ⟨h1, q, hq, hdl⟩ := ih ci off out out' h
        exact ⟨h1, q, List.mem_cons_of_mem p hq, hdl⟩
      | true =>
        rw [if_neg (show ¬(!p.present) = true by simp [hp])] at h
        by_cases hsz :
            (tail_reset ci off p.ino p.content.length).2 < p.content.length
        · rw [if_pos hsz] at h
          cases hscan : scan_once (match_line jparse rsearch f)
              (readLines p.content
                (tail_reset ci off p.ino p.content.length).2).1 with
          | found l =>
            rw [hscan] at h
            cases h
          | err =>
            rw [hscan] at h
            cases h
          | noneFound =>
            rw [hscan] at h
            obtain ⟨h1, q, hq, hdl⟩ := ih _ _ out out' h
            exact ⟨h1, q, List.mem_cons_of_mem p hq, hdl⟩
        · rw [if_neg hsz] at h
          obtain ⟨h1, q, hq, hdl⟩ := ih _ _ out out' h
          exact ⟨h1, q, List.mem_cons_of_mem p hq, hdl⟩

theorem once_loop_matched (jparse : String → Option JVal)
    (rsearch : String → String → Bool → Bool) (f : Filter) (deadline : Int) :
    ∀ (polls : List Poll) (cur_inode offset : Nat) (out out' : List String),
      once_loop jparse rsearch f deadline polls cur_inode offset out =
        .matched out' →
      ∃ l, out' = out ++ [l] ∧ match_line jparse rsearch f l = .ok true := by
  intro polls
  induction polls with
  | nil =>
    intro ci off out out' h
    simp [once_loop] at h
  | cons p rest ih =>
    intro ci off out out' h
    simp only [once_loop] at h
    by_cases hd : deadline ≤ p.now
    · rw [if_pos hd] at h
      cases h
    · rw [if_neg hd] at h
      cases hp : p.present with
      | false =>
        rw [if_pos (show (!p.present) = true by simp [hp])] at h
        exact ih ci off out out' h
      | true =>
        rw [if_neg (show ¬(!p.present) = true by simp [hp])] at h
        by_cases hsz :
            (tail_reset ci off p.ino p.content.length).2 < p.content.length
        · rw [if_pos hsz] at h
          cases hscan : scan_once (match_line jparse rsearch f)
              (readLines p.content
                (tail_reset ci off p.ino p.content.length).2).1 with
          | found l =>
            rw [hscan] at h
            cases h
            obtain ⟨hml, _⟩ := scan_once_found _ _ _ hscan
            exact ⟨l, rfl, hml⟩
          | err =>
            rw [hscan] at h
            cases h
          | noneFound =>
            rw [hscan] at h
            exact ih _ _ out out' h
        · rw [if_neg hsz] at h
          exact ih _ _ out out' h

/-- C8: in `--once` mode the session returns exit code 0 as soon as a
matching line is found — the emitted output is the previous output plus
exactly that one matching line — and returns exit code 1 only at a poll
whose clock reached the deadline, emitting nothing new; the two exit codes
are distinct from each other and from the usage-fatal exit code 2. -/
theorem once_mode_outcomes (jparse : String → Option JVal)
    (rsearch : String → String → Bool → Bool) (f : Filter) (deadline : Int)
    (polls : List Poll) (cur_inode offset : Nat) (out : List String) :
    (∀ out',
      once_loop jparse rsearch f deadline polls cur_inode offset out =
        .timedOut out' →
      out' = out ∧ ∃ p ∈ polls, deadline ≤ p.now) ∧
    (∀ out',
      once_loop jparse rsearch f deadline polls cur_inode offset out =
        .matched out' →
      ∃ l, out' = out ++ [l] ∧ match_line jparse rsearch f l = .ok true) ∧
    exit_code (.timedOut out) = some 1 ∧
    exit_code (.matched out) = some 0 ∧
    usage_exit = 2 ∧ (1 : Nat) ≠ 0 ∧ (1 : Nat) ≠ 2 ∧ (0 : Nat) ≠ 2 :=
  ⟨fun out' h =>
      once_loop_timedOut jparse rsearch f deadline polls cur_inode offset
        out out' h,
   fun out' h =>
      once_loop_matched jparse rsearch f deadline polls cur_inode offset
        out out' h,
   rfl, rfl, rfl, by decide, by decide, by decide⟩

theorem once_mode_outcomes_witness :
    ∃ l, (["x"] : List String) = [] ++ [l] ∧
      match_line (fun _ => some (.jobj [])) (fun _ _ _ => true)
        ⟨none, none, none⟩ l = .ok true :=
  (once_mode_outcomes (fun _ => some (.jobj [])) (fun _ _ _ => true)
      ⟨none, none, none⟩ 10 [⟨0, true, 1, ['x', '\n']⟩] 1 0 []).2.1 ["x"]
    (by decide)

end WaHub
